import Mathlib

/-!
Shallow embedding of the `dns` package (message codec with name compression
and the iterative resolver) together with proofs about the claims of its
specification.

Bytes are modelled as `Nat` values (< 256 in every stream that can arise from
the Go code); byte streams are `List Nat`.  A `bufio.Reader` is modelled by
explicitly threading the remaining stream; the `io.ReadSeeker` backing buffer
(`SeekBuffer`) is an `Option (List Nat)` holding all bytes of the message.
The unbounded recursion through compression pointers and the unbounded
resolver loop are modelled with an explicit fuel parameter: a result of
`none` means the computation did not finish within the given fuel bound, so
`∀ fuel, f fuel = none` models nontermination of the Go code.
-/

namespace Dns

/-! ### Definitions: the embedding of the dns package -/


abbrev Bytes := List Nat

/-- Errors produced by the decoding functions, mirroring the `error` values
returned by the Go code: end of input (`io.EOF` / `io.ErrUnexpectedEOF`),
`"cannot decompress without seeker"`, and `"seek offset out of bounds"`. -/
inductive DErr where
  | eof
  | noSeeker
  | seekOOB
deriving DecidableEq, Repr

/-- Big-endian encoding of a 16-bit value (`binary.Write` of a `uint16`). -/
def enc16 (x : Nat) : Bytes := [x / 256 % 256, x % 256]

/-- Big-endian encoding of a 32-bit value (`binary.Write` of a `uint32`). -/
def enc32 (x : Nat) : Bytes :=
  [x / 16777216 % 256, x / 65536 % 256, x / 256 % 256, x % 256]

/-- Reading a big-endian `uint16` (`binary.Read`); fails on short input. -/
def readU16 : Bytes → Except DErr (Nat × Bytes)
  | a :: b :: rest => .ok (a * 256 + b, rest)
  | _ => .error .eof

/-- Reading a big-endian `uint32` (`binary.Read`); fails on short input. -/
def readU32 : Bytes → Except DErr (Nat × Bytes)
  | a :: b :: c :: d :: rest => .ok (((a * 256 + b) * 256 + c) * 256 + d, rest)
  | _ => .error .eof

/-- `io.ReadFull` of exactly `n` bytes; fails if fewer are available. -/
def readFull (n : Nat) (s : Bytes) : Except DErr (Bytes × Bytes) :=
  if n ≤ s.length then .ok (s.take n, s.drop n) else .error .eof

/-- `bytes.Split(name, []byte("."))`: split a byte sequence on `'.'` (46).
On the empty input this yields one empty part, as in Go. -/
def splitOnDot : Bytes → List Bytes
  | [] => [[]]
  | b :: rest =>
    let parts := splitOnDot rest
    if b = 46 then [] :: parts
    else
      match parts with
      | p :: ps => (b :: p) :: ps
      | [] => [[b]]

/-- `EncodeName`: each dot-separated part is emitted as a length byte
(`byte(len(part))`, i.e. truncated mod 256) followed by the raw part, with a
terminating zero byte. -/
def EncodeName (name : Bytes) : Bytes :=
  ((splitOnDot name).foldl (fun b part => b ++ [part.length % 256] ++ part) []) ++ [0]

/-- The loop of `DecodeName`, with the accumulated name `acc` made explicit
(`var name []byte` in the Go code) and `fuel` bounding the number of loop
iterations and compression-pointer jumps (the Go code has no bound at all:
`none` models that the computation did not finish within `fuel` steps, so a
result of `none` for every `fuel` models nontermination).  `s` is the
remaining input of the reader `r`; `rs` is the backing buffer.  The pointer
branch inlines `DecodeCompressedName` (see `DecodeCompressedName` below and
`decodeNameAux_pointer_branch`). -/
def DecodeNameAux : Nat → Bytes → Bytes → Option Bytes → Option (Except DErr (Bytes × Bytes))
  | 0, _, _, _ => none
  | fuel + 1, acc, s, rs =>
    match s with
    | [] => some (.error .eof)
    | b :: s1 =>
      if b = 0 then some (.ok (acc, s1))
      else if b &&& 192 ≠ 0 then
        match rs with
        | none => some (.error .noSeeker)
        | some data =>
          match s1 with
          | [] => some (.error .eof)
          | b2 :: s2 =>
            let pointer := (b &&& 63) * 256 + b2
            if pointer < data.length then
              match DecodeNameAux fuel [] (data.drop pointer) (some data) with
              | none => none
              | some (.error e) => some (.error e)
              | some (.ok (part, _)) =>
                some (.ok ((if 0 < acc.length then acc ++ [46] else acc) ++ part, s2))
            else some (.error .seekOOB)
      else
        if b ≤ s1.length then
          DecodeNameAux fuel ((if 0 < acc.length then acc ++ [46] else acc) ++ s1.take b)
            (s1.drop b) rs
        else some (.error .eof)

/-- `DecodeName(r, rs)`: decode one name from the stream `s`. -/
def DecodeName (fuel : Nat) (s : Bytes) (rs : Option Bytes) :
    Option (Except DErr (Bytes × Bytes)) :=
  DecodeNameAux fuel [] s rs

/-- `DecodeCompressedName(r, rs, length)`: fails if there is no seeker, reads
one more byte `b`, computes the offset from the low 6 bits of `length` and
`b`, seeks (`SeekBuffer.Seek` fails unless `0 ≤ offset < len(data)`), and
decodes one name starting at that offset of the backing buffer.  The result
is paired with the bytes remaining in the outer reader. -/
def DecodeCompressedName (fuel : Nat) (s : Bytes) (rs : Option Bytes) (length : Nat) :
    Option (Except DErr (Bytes × Bytes)) :=
  match rs with
  | none => some (.error .noSeeker)
  | some data =>
    match s with
    | [] => some (.error .eof)
    | b :: s1 =>
      let pointer := (length &&& 63) * 256 + b
      if pointer < data.length then
        match DecodeNameAux fuel [] (data.drop pointer) (some data) with
        | none => none
        | some (.error e) => some (.error e)
        | some (.ok (part, _)) => some (.ok (part, s1))
      else some (.error .seekOOB)

/-- DNS record/question types: `TypeA = 1`, `TypeNS = 2`, `TypeTXT = 16`. -/
def TypeA : Nat := 1

def TypeNS : Nat := 2

def TypeTXT : Nat := 16

def ClassIN : Nat := 1

/-- The 12-byte DNS header.  All fields are `uint16` in the Go code; the
embedding uses `Nat` with a `< 65536` validity side condition. -/
structure Header where
  ID : Nat
  Flags : Nat
  NumQuestions : Nat
  NumAnswers : Nat
  NumAuthorities : Nat
  NumAdditionals : Nat
deriving DecidableEq, Repr

/-- `Header.Encode`: big-endian encoding of the six 16-bit fields. -/
def Header.Encode (h : Header) : Bytes :=
  enc16 h.ID ++ enc16 h.Flags ++ enc16 h.NumQuestions ++ enc16 h.NumAnswers ++
    enc16 h.NumAuthorities ++ enc16 h.NumAdditionals

/-- `Header.Decode`: `binary.Read` of the six big-endian 16-bit fields. -/
def Header.Decode (s : Bytes) : Except DErr (Header × Bytes) :=
  match readU16 s with
  | .error e => .error e
  | .ok (id, s1) =>
    match readU16 s1 with
    | .error e => .error e
    | .ok (flags, s2) =>
      match readU16 s2 with
      | .error e => .error e
      | .ok (nq, s3) =>
        match readU16 s3 with
        | .error e => .error e
        | .ok (nan, s4) =>
          match readU16 s4 with
          | .error e => .error e
          | .ok (nau, s5) =>
            match readU16 s5 with
            | .error e => .error e
            | .ok (nad, s6) => .ok (⟨id, flags, nq, nan, nau, nad⟩, s6)

/-- A question: name, type, class (Go field names `Name`, `Type`, `Class`;
`Type` and `Class` are keywords in Lean, hence `Typ` and `Cls`). -/
structure Question where
  Name : Bytes
  Typ : Nat
  Cls : Nat
deriving DecidableEq, Repr

/-- `Question.Encode`: encoded name, then big-endian type and class. -/
def Question.Encode (q : Question) : Bytes :=
  EncodeName q.Name ++ enc16 q.Typ ++ enc16 q.Cls

/-- `Question.Decode`: name (possibly compressed), then type and class. -/
def Question.Decode (fuel : Nat) (s : Bytes) (rs : Option Bytes) :
    Option (Except DErr (Question × Bytes)) :=
  match DecodeName fuel s rs with
  | none => none
  | some (.error e) => some (.error e)
  | some (.ok (name, s1)) =>
    match readU16 s1 with
    | .error e => some (.error e)
    | .ok (typ, s2) =>
      match readU16 s2 with
      | .error e => some (.error e)
      | .ok (cls, s3) => some (.ok (⟨name, typ, cls⟩, s3))

/-- A resource record: name, type, class, TTL and data payload. -/
structure Record where
  Name : Bytes
  Typ : Nat
  Cls : Nat
  TTL : Nat
  Data : Bytes
deriving DecidableEq, Repr

/-- `Record.Encode`: encoded name, type/class/TTL, then the 16-bit length of
the payload and the payload itself; for `NS` records the stored name in
`Data` is itself name-encoded first. -/
def Record.Encode (r : Record) : Bytes :=
  let data := if r.Typ = TypeNS then EncodeName r.Data else r.Data
  EncodeName r.Name ++ enc16 r.Typ ++ enc16 r.Cls ++ enc32 r.TTL ++
    enc16 (data.length % 65536) ++ data

/-- `Record.Decode`: name, fixed fields, `DataLen` bytes of payload; for `NS`
records the payload is then re-decoded as a name (threading the same backing
buffer `rs`) and replaces `Data`. -/
def Record.Decode (fuel : Nat) (s : Bytes) (rs : Option Bytes) :
    Option (Except DErr (Record × Bytes)) :=
  match DecodeName fuel s rs with
  | none => none
  | some (.error e) => some (.error e)
  | some (.ok (name, s1)) =>
    match readU16 s1 with
    | .error e => some (.error e)
    | .ok (typ, s2) =>
      match readU16 s2 with
      | .error e => some (.error e)
      | .ok (cls, s3) =>
        match readU32 s3 with
        | .error e => some (.error e)
        | .ok (ttl, s4) =>
          match readU16 s4 with
          | .error e => some (.error e)
          | .ok (dataLen, s5) =>
            match readFull dataLen s5 with
            | .error e => some (.error e)
            | .ok (data, s6) =>
              if typ = TypeNS then
                match DecodeName fuel data rs with
                | none => none
                | some (.error e) => some (.error e)
                | some (.ok (nm, _)) => some (.ok (⟨name, typ, cls, ttl, nm⟩, s6))
              else some (.ok (⟨name, typ, cls, ttl, data⟩, s6))

/-- A packet: header plus the four record sections. -/
structure Packet where
  Hdr : Header
  Questions : List Question
  Answers : List Record
  Authorities : List Record
  Additionals : List Record
deriving DecidableEq, Repr

/-- `Packet.Encode`: header bytes, then each section in order. -/
def Packet.Encode (p : Packet) : Bytes :=
  p.Hdr.Encode ++ (p.Questions.map Question.Encode).flatten ++
    (p.Answers.map Record.Encode).flatten ++ (p.Authorities.map Record.Encode).flatten ++
    (p.Additionals.map Record.Encode).flatten

/-- One section loop of `Packet.Decode`: decode `n` entries, appending each to
`acc` (the slice held in the receiver).  On failure the entries decoded so
far are returned together with the error, mirroring the Go method that has
already appended them to the receiver when it returns the error. -/
def decodeCountPartial {α : Type} (dec : Bytes → Option (Except DErr (α × Bytes))) :
    Nat → Bytes → List α → Option (List α × Except DErr Bytes)
  | 0, s, acc => some (acc, .ok s)
  | n + 1, s, acc =>
    match dec s with
    | none => none
    | some (.error e) => some (acc, .error e)
    | some (.ok (a, s1)) => decodeCountPartial dec n s1 (acc ++ [a])

/-- The zero `Packet` value (`var pkt Packet` in Go). -/
def emptyPacket : Packet := ⟨⟨0, 0, 0, 0, 0, 0⟩, [], [], [], []⟩

/-- `Packet.Decode` including the state of the receiver: the result is the
final value of the receiver `p` together with either the remaining input or
the error that aborted the decode.  On error the receiver retains whatever
sections were appended before the failure, exactly as the Go method leaves
its receiver. -/
def Packet.DecodeImpl (fuel : Nat) (s : Bytes) (rs : Option Bytes) :
    Option (Packet × Except DErr Bytes) :=
  match Header.Decode s with
  | .error e => some (emptyPacket, .error e)
  | .ok (h, s1) =>
    match decodeCountPartial (fun t => Question.Decode fuel t rs) h.NumQuestions s1 [] with
    | none => none
    | some (qs, .error e) => some ({ emptyPacket with Hdr := h, Questions := qs }, .error e)
    | some (qs, .ok s2) =>
      match decodeCountPartial (fun t => Record.Decode fuel t rs) h.NumAnswers s2 [] with
      | none => none
      | some (ans, .error e) =>
        some ({ emptyPacket with Hdr := h, Questions := qs, Answers := ans }, .error e)
      | some (ans, .ok s3) =>
        match decodeCountPartial (fun t => Record.Decode fuel t rs) h.NumAuthorities s3 [] with
        | none => none
        | some (aus, .error e) =>
          some ({ Hdr := h, Questions := qs, Answers := ans, Authorities := aus,
                  Additionals := [] }, .error e)
        | some (aus, .ok s4) =>
          match decodeCountPartial (fun t => Record.Decode fuel t rs) h.NumAdditionals s4 [] with
          | none => none
          | some (ads, .error e) =>
            some ({ Hdr := h, Questions := qs, Answers := ans, Authorities := aus,
                    Additionals := ads }, .error e)
          | some (ads, .ok s5) =>
            some ({ Hdr := h, Questions := qs, Answers := ans, Authorities := aus,
                    Additionals := ads }, .ok s5)

/-- `Packet.Decode` as its callers see it: an error or the decoded packet
with the remaining input. -/
def Packet.Decode (fuel : Nat) (s : Bytes) (rs : Option Bytes) :
    Option (Except DErr (Packet × Bytes)) :=
  match Packet.DecodeImpl fuel s rs with
  | none => none
  | some (_, .error e) => some (.error e)
  | some (p, .ok rest) => some (.ok (p, rest))

/-- The value handed back by `SendQuery` (and by `Serve`'s decode step) after
running `pkt.Decode`: on any decode error the callers return `nil, err`
(respectively skip the datagram), so no packet at all is handed back. -/
def sendQueryPacket (fuel : Nat) (s : Bytes) (rs : Option Bytes) : Option Packet :=
  match Packet.DecodeImpl fuel s rs with
  | some (p, .ok _) => some p
  | _ => none

/-- The body of `EncodeName` before the terminating zero byte. -/
def encBody (parts : List Bytes) : Bytes :=
  parts.foldl (fun b part => b ++ [part.length % 256] ++ part) []

/-- The name accumulated by the `DecodeName` loop over a list of parts,
starting from accumulator `acc`: each part is appended, preceded by a dot
when the accumulator is nonempty. -/
def joinFrom (acc : Bytes) (parts : List Bytes) : Bytes :=
  parts.foldl (fun n p => (if 0 < n.length then n ++ [46] else n) ++ p) acc

/-- All parts, each preceded by a dot. -/
def dotsFlat (parts : List Bytes) : Bytes := (parts.map (fun p => 46 :: p)).flatten

/-- `fuel` is large enough to decode a name with this many labels. -/
def NameFits (fuel : Nat) (n : Bytes) : Prop := (splitOnDot n).length < fuel

/-- A well-formed name: every dot-separated label is nonempty and at most 63
bytes long. -/
def ValidName (n : Bytes) : Prop := ∀ p ∈ splitOnDot n, 0 < p.length ∧ p.length ≤ 63

instance (fuel : Nat) (n : Bytes) : Decidable (NameFits fuel n) := by
  unfold NameFits; infer_instance

instance (n : Bytes) : Decidable (ValidName n) := by
  unfold ValidName; infer_instance

/-- All fields of a `Header` fit in 16 bits. -/
def ValidHeader (h : Header) : Prop :=
  h.ID < 65536 ∧ h.Flags < 65536 ∧ h.NumQuestions < 65536 ∧ h.NumAnswers < 65536 ∧
    h.NumAuthorities < 65536 ∧ h.NumAdditionals < 65536

instance (h : Header) : Decidable (ValidHeader h) := by
  unfold ValidHeader; infer_instance

/-- A `Question` whose name is well-formed and whose type and class fit in
16 bits. -/
def ValidQuestion (q : Question) : Prop :=
  ValidName q.Name ∧ q.Typ < 65536 ∧ q.Cls < 65536

instance (q : Question) : Decidable (ValidQuestion q) := by
  unfold ValidQuestion; infer_instance

/-- A `Record` whose names are well-formed, whose fixed fields fit their
widths, and whose payload fits the 16-bit length field. -/
def ValidRecord (r : Record) : Prop :=
  ValidName r.Name ∧ r.Typ < 65536 ∧ r.Cls < 65536 ∧ r.TTL < 4294967296 ∧
    (r.Typ = TypeNS → ValidName r.Data ∧ (EncodeName r.Data).length < 65536) ∧
    (r.Typ ≠ TypeNS → r.Data.length < 65536)

instance (r : Record) : Decidable (ValidRecord r) := by
  unfold ValidRecord; infer_instance

/-- `fuel` covers both names that a record decode may read. -/
def RecordFits (fuel : Nat) (r : Record) : Prop :=
  NameFits fuel r.Name ∧ (r.Typ = TypeNS → NameFits fuel r.Data)

instance (fuel : Nat) (r : Record) : Decidable (RecordFits fuel r) := by
  unfold RecordFits; infer_instance

/-- A structurally valid packet: the header counts equal the section lengths
(the invariant `Packet.Encode` relies on) and every entry is valid. -/
def ValidPacket (p : Packet) : Prop :=
  ValidHeader p.Hdr ∧
    p.Hdr.NumQuestions = p.Questions.length ∧ p.Hdr.NumAnswers = p.Answers.length ∧
    p.Hdr.NumAuthorities = p.Authorities.length ∧
    p.Hdr.NumAdditionals = p.Additionals.length ∧
    (∀ q ∈ p.Questions, ValidQuestion q) ∧ (∀ r ∈ p.Answers, ValidRecord r) ∧
    (∀ r ∈ p.Authorities, ValidRecord r) ∧ (∀ r ∈ p.Additionals, ValidRecord r)

instance (p : Packet) : Decidable (ValidPacket p) := by
  unfold ValidPacket; infer_instance

/-- `fuel` covers every name occurring in the packet. -/
def PacketFits (fuel : Nat) (p : Packet) : Prop :=
  (∀ q ∈ p.Questions, NameFits fuel q.Name) ∧
    (∀ r ∈ p.Answers, RecordFits fuel r) ∧ (∀ r ∈ p.Authorities, RecordFits fuel r) ∧
    (∀ r ∈ p.Additionals, RecordFits fuel r)

instance (fuel : Nat) (p : Packet) : Decidable (PacketFits fuel p) := by
  unfold PacketFits; infer_instance

/-- `ParseIP`: each byte rendered in decimal, joined with dots
(`strconv.Itoa` + `strings.Join`). -/
def ParseIP (data : Bytes) : String :=
  String.intercalate "." (data.map (fun b => toString b))

/-- `net.JoinHostPort`: `host + ":" + port`, bracketing hosts that contain a
colon (never the case for `ParseIP` output). -/
def joinHostPort (host port : String) : String :=
  if host.contains ':' then "[" ++ host ++ "]:" ++ port else host ++ ":" ++ port

/-- The zero `Record` value returned by `FindRecord` on failure. -/
def emptyRecord : Record := ⟨[], 0, 0, 0, []⟩

/-- `FindRecord(recs, typ)`: the first record of the given type in section
order, together with a found flag; the zero record and `false` otherwise. -/
def FindRecord : List Record → Nat → Record × Bool
  | [], _ => (emptyRecord, false)
  | r :: rest, typ => if r.Typ = typ then (r, true) else FindRecord rest typ

/-- `BuildQuery(id, domain, typ, flags)`: a packet with one question of class
`IN` and a header announcing exactly that question. -/
def BuildQuery (id : Nat) (domain : Bytes) (typ : Nat) (flags : Nat) : Packet :=
  { Hdr := ⟨id, flags, 1, 0, 0, 0⟩,
    Questions := [⟨domain, typ, ClassIN⟩],
    Answers := [], Authorities := [], Additionals := [] }

/-- The fixed root server address used by `Resolve`. -/
def rootAddr : String := "198.41.0.4:53"

/-- The network as the resolver sees it: `SendQuery(addr, q)` either produces
a decoded response packet or fails (`none` models any transport or decode
error; the real `SendQuery` also replaces a zero ID by a random one, which no
response handling depends on). -/
abbrev Network := String → Packet → Option Packet

/-- `Resolve(question)` starting from server address `addr`, with `fuel`
bounding the number of loop iterations (the Go loop `for { ... }` is
unbounded, so `none` means the loop did not finish within `fuel`
iterations).  Each iteration: send the query; return the packet if an answer
of the asked-for type is present; otherwise follow a glue `A` additional if
any; otherwise, if an `NS` authority is present, resolve its name via
`ResolveDomain` (inlined here: a fresh resolution from the root followed by
`ParseIP` of the first `A` answer) and continue there; otherwise return the
packet as-is. -/
def Resolve (net : Network) : Nat → Question → String → Option (Except Unit Packet)
  | 0, _, _ => none
  | fuel + 1, question, addr =>
    match net addr (BuildQuery 0 question.Name question.Typ 0) with
    | none => some (.error ())
    | some pkt =>
      if (FindRecord pkt.Answers question.Typ).2 then some (.ok pkt)
      else
        let ns := FindRecord pkt.Additionals TypeA
        if ns.2 then Resolve net fuel question (joinHostPort (ParseIP ns.1.Data) "53")
        else
          let auth := FindRecord pkt.Authorities TypeNS
          if auth.2 then
            match Resolve net fuel ⟨auth.1.Data, TypeA, ClassIN⟩ rootAddr with
            | none => none
            | some (.error e) => some (.error e)
            | some (.ok pkt2) =>
              Resolve net fuel question
                (joinHostPort (ParseIP (FindRecord pkt2.Answers TypeA).1.Data) "53")
          else some (.ok pkt)

/-- `ResolveDomain(domain, typ)`: run `Resolve` from the root and render the
data of the first answer of the requested type with `ParseIP`, discarding
the found flag of `FindRecord`. -/
def ResolveDomain (net : Network) (fuel : Nat) (domain : Bytes) (typ : Nat) :
    Option (Except Unit String) :=
  match Resolve net fuel ⟨domain, typ, ClassIN⟩ rootAddr with
  | none => none
  | some (.error e) => some (.error e)
  | some (.ok pkt) => some (.ok (ParseIP (FindRecord pkt.Answers typ).1.Data))

/-- A response carrying an answer of the requested type together with both an
`NS` authority and a glue `A` additional. -/
def answerPacket : Packet :=
  { Hdr := ⟨7, 0, 0, 1, 1, 1⟩,
    Questions := [],
    Answers := [⟨[103, 111], TypeA, ClassIN, 60, [9, 9, 9, 9]⟩],
    Authorities := [⟨[103, 111], TypeNS, ClassIN, 60, [110, 115]⟩],
    Additionals := [⟨[110, 115], TypeA, ClassIN, 60, [5, 6, 7, 8]⟩] }

/-- A delegation response with no answer: one `NS` authority and one glue `A`
additional. -/
def delegationPacket : Packet :=
  { Hdr := ⟨7, 0, 0, 0, 1, 1⟩,
    Questions := [],
    Answers := [],
    Authorities := [⟨[103, 111], TypeNS, ClassIN, 60, [110, 115]⟩],
    Additionals := [⟨[116, 120], TypeTXT, ClassIN, 60, [1]⟩,
                    ⟨[110, 115], TypeA, ClassIN, 60, [5, 6, 7, 8]⟩] }

/-- A delegation response with no answer and no glue: only an `NS`
authority. -/
def nsOnlyPacket : Packet :=
  { Hdr := ⟨7, 0, 0, 0, 1, 0⟩,
    Questions := [],
    Answers := [],
    Authorities := [⟨[103, 111], TypeNS, ClassIN, 60, [110, 115]⟩],
    Additionals := [] }

/-- A response with nothing at all: no answer, no glue, no authority. -/
def deadEndPacket : Packet :=
  { Hdr := ⟨7, 0, 0, 0, 0, 0⟩, Questions := [], Answers := [], Authorities := [],
    Additionals := [] }

/-- A server chain that always delegates via glue and never answers. -/
def glueLoopNet : Network := fun _ _ => some delegationPacket

/-- A packet exercising all four sections, including an `NS` record whose
data is a name. -/
def rtPacket : Packet :=
  { Hdr := ⟨4884, 256, 1, 1, 1, 1⟩,
    Questions := [⟨[103, 111], TypeA, ClassIN⟩],
    Answers := [⟨[103, 111], TypeA, ClassIN, 300, [1, 2, 3, 4]⟩],
    Authorities := [⟨[103, 111], TypeNS, ClassIN, 300, [110, 115, 46, 103, 111]⟩],
    Additionals := [⟨[110, 115, 46, 103, 111], TypeA, ClassIN, 300, [5, 6, 7, 8]⟩] }

/-- A message truncated after its single question, though its header
announces one answer record. -/
def truncatedInput : Bytes :=
  Header.Encode ⟨1, 0, 1, 1, 0, 0⟩ ++ Question.Encode ⟨[97, 98], TypeA, ClassIN⟩

/-- The receiver state of `Packet.Decode` on `truncatedInput` when the
answer decode fails: the already-decoded question is retained there. -/
def truncatedPartial : Packet :=
  ⟨⟨1, 0, 1, 1, 0, 0⟩, [⟨[97, 98], TypeA, ClassIN⟩], [], [], []⟩

/-! ### Theorems -/

/-- The pointer branch of `DecodeNameAux` is exactly `DecodeCompressedName`
followed by the dot-append of the decoded part and termination of the name,
as in the Go source where `DecodeName` calls `DecodeCompressedName`. -/
theorem decodeNameAux_pointer_branch (fuel : Nat) (acc : Bytes) (b : Nat) (s1 : Bytes)
    (rs : Option Bytes) (hb0 : b ≠ 0) (hb : b &&& 192 ≠ 0) :
    DecodeNameAux (fuel + 1) acc (b :: s1) rs =
      match DecodeCompressedName fuel s1 rs b with
      | none => none
      | some (.error e) => some (.error e)
      | some (.ok (part, rest)) =>
          some (.ok ((if 0 < acc.length then acc ++ [46] else acc) ++ part, rest)) := by
  simp only [DecodeNameAux, DecodeCompressedName, hb0, hb, ne_eq, not_false_eq_true,
    ite_true, ite_false]
  cases rs with
  | none => rfl
  | some data =>
    cases s1 with
    | nil => rfl
    | cons b2 s2 =>
      by_cases hp : (b &&& 63) * 256 + b2 < data.length
      · simp only [hp, if_true]
        cases DecodeNameAux fuel [] (data.drop ((b &&& 63) * 256 + b2)) (some data) with
        | none => rfl
        | some r =>
          cases r with
          | error e => rfl
          | ok pr => rfl
      · simp [hp]

theorem encBody_acc (parts : List Bytes) :
    ∀ acc : Bytes, parts.foldl (fun b part => b ++ [part.length % 256] ++ part) acc =
      acc ++ encBody parts := by
  induction parts with
  | nil => intro acc; simp [encBody]
  | cons p ps ih =>
    intro acc
    simp only [encBody, List.foldl_cons, List.nil_append]
    rw [ih, ih ([p.length % 256] ++ p)]
    simp [List.append_assoc]

theorem encodeName_eq_encBody (n : Bytes) : EncodeName n = encBody (splitOnDot n) ++ [0] := rfl

theorem joinFrom_of_ne_nil (parts : List Bytes) :
    ∀ acc : Bytes, acc ≠ [] → joinFrom acc parts = acc ++ dotsFlat parts := by
  induction parts with
  | nil => intro acc _; simp [joinFrom, dotsFlat]
  | cons p ps ih =>
    intro acc hacc
    have hpos : 0 < acc.length := List.length_pos.mpr hacc
    have h2 : joinFrom (acc ++ [46] ++ p) ps = (acc ++ [46] ++ p) ++ dotsFlat ps :=
      ih (acc ++ [46] ++ p) (by simp)
    simp only [joinFrom, List.foldl_cons, if_pos hpos] at h2 ⊢
    rw [h2]
    simp [dotsFlat, List.append_assoc]

theorem splitOnDot_ne_nil (n : Bytes) : splitOnDot n ≠ [] := by
  cases n with
  | nil => simp [splitOnDot]
  | cons b rest =>
    simp only [splitOnDot]
    split
    · simp
    · split <;> simp

theorem split_join (n : Bytes) :
    ∀ p ps, splitOnDot n = p :: ps → p ++ dotsFlat ps = n := by
  induction n with
  | nil =>
    intro p ps h
    simp only [splitOnDot] at h
    cases h
    simp [dotsFlat]
  | cons b rest ih =>
    intro p ps h
    cases hrest : splitOnDot rest with
    | nil => exact absurd hrest (splitOnDot_ne_nil rest)
    | cons q qs =>
      have hq : q ++ dotsFlat qs = rest := ih q qs hrest
      simp only [splitOnDot, hrest] at h
      by_cases hb : b = 46
      · rw [if_pos hb] at h
        cases h
        subst hb
        have hd : dotsFlat (q :: qs) = 46 :: (q ++ dotsFlat qs) := by simp [dotsFlat]
        simp only [List.nil_append, hd, hq]
      · rw [if_neg hb] at h
        cases h
        simp only [List.cons_append, hq]

theorem joinFrom_nil_split (n : Bytes) (h : ∀ p ∈ splitOnDot n, 0 < p.length) :
    joinFrom [] (splitOnDot n) = n := by
  cases hsp : splitOnDot n with
  | nil => exact absurd hsp (splitOnDot_ne_nil n)
  | cons p ps =>
    have hp : p ≠ [] := by
      have := h p (by rw [hsp]; exact List.mem_cons_self p ps)
      exact List.ne_nil_of_length_pos this
    have h2 : joinFrom p ps = p ++ dotsFlat ps := joinFrom_of_ne_nil ps p hp
    have h1 : joinFrom [] (p :: ps) = joinFrom p ps := by
      simp [joinFrom]
    rw [h1, h2]
    exact split_join n p ps hsp

theorem land192_eq_zero : ∀ n, n < 64 → n &&& 192 = 0 := by decide

/-- One plain-label step of the `DecodeName` loop. -/
theorem decodeNameAux_label_step (fuel : Nat) (acc : Bytes) (b : Nat) (s1 : Bytes)
    (rs : Option Bytes) (hb0 : b ≠ 0) (hb : b &&& 192 = 0) (hble : b ≤ s1.length) :
    DecodeNameAux (fuel + 1) acc (b :: s1) rs =
      DecodeNameAux fuel ((if 0 < acc.length then acc ++ [46] else acc) ++ s1.take b)
        (s1.drop b) rs := by
  conv_lhs => rw [DecodeNameAux.eq_def]
  dsimp only
  rw [if_neg hb0, if_neg (by simp [hb]), if_pos hble]

/-- Decoding the wire form of a list of nonempty labels of length at most 63:
the loop consumes exactly the encoded labels and the terminating zero byte,
appending the labels to the accumulator. -/
theorem decode_encBody (parts : List Bytes) :
    ∀ (fuel : Nat) (acc s : Bytes) (rs : Option Bytes),
      (∀ p ∈ parts, 0 < p.length ∧ p.length ≤ 63) →
      DecodeNameAux (fuel + parts.length + 1) acc (encBody parts ++ [0] ++ s) rs =
        some (.ok (joinFrom acc parts, s)) := by
  induction parts with
  | nil =>
    intro fuel acc s rs _
    simp [encBody, joinFrom, DecodeNameAux]
  | cons p ps ih =>
    intro fuel acc s rs h
    obtain ⟨hp0, hp63⟩ := h p (List.mem_cons_self p ps)
    have hlen : p.length % 256 = p.length := Nat.mod_eq_of_lt (by omega)
    have hbody : encBody (p :: ps) = [p.length % 256] ++ p ++ encBody ps := by
      show List.foldl _ [] (p :: ps) = _
      rw [List.foldl_cons, encBody_acc]
      simp
    have hshape : encBody (p :: ps) ++ [0] ++ s =
        p.length :: (p ++ (encBody ps ++ [0] ++ s)) := by
      rw [hbody, hlen]
      simp [List.append_assoc]
    rw [hshape]
    have hsucc : fuel + (p :: ps).length + 1 = (fuel + ps.length + 1) + 1 := by
      simp [List.length_cons]; omega
    rw [hsucc]
    rw [decodeNameAux_label_step (fuel + ps.length + 1) acc p.length
      (p ++ (encBody ps ++ [0] ++ s)) rs (by omega)
      (land192_eq_zero p.length (by omega)) (by simp)]
    rw [List.take_left, List.drop_left]
    rw [ih fuel _ s rs (fun q hq => h q (List.mem_cons_of_mem p hq))]
    rfl

/-- Round trip of name encoding for well-formed names, with arbitrary
trailing input and any sufficient fuel. -/
theorem decodeName_encodeName (n : Bytes) (fuel : Nat) (s : Bytes) (rs : Option Bytes)
    (hv : ValidName n) (hf : NameFits fuel n) :
    DecodeName fuel (EncodeName n ++ s) rs = some (.ok (n, s)) := by
  obtain ⟨d, rfl⟩ : ∃ d, fuel = d + (splitOnDot n).length + 1 := by
    refine ⟨fuel - (splitOnDot n).length - 1, ?_⟩
    have := hf
    unfold NameFits at this
    omega
  unfold DecodeName
  rw [encodeName_eq_encBody]
  rw [decode_encBody (splitOnDot n) d [] s rs hv]
  rw [joinFrom_nil_split n (fun p hp => (hv p hp).1)]

/-- `decodeName_encodeName` in a form usable by `simp`. -/
theorem decodeName_encodeName_simp (n : Bytes) (fuel : Nat) (rs : Option Bytes)
    (hv : ValidName n) (hf : NameFits fuel n) :
    ∀ s : Bytes, DecodeName fuel (EncodeName n ++ s) rs = some (.ok (n, s)) :=
  fun s => decodeName_encodeName n fuel s rs hv hf

/-- Round trip of name encoding when the encoded name is the whole input. -/
theorem decodeName_encodeName_nil (n : Bytes) (fuel : Nat) (rs : Option Bytes)
    (hv : ValidName n) (hf : NameFits fuel n) :
    DecodeName fuel (EncodeName n) rs = some (.ok (n, [])) := by
  have := decodeName_encodeName n fuel [] rs hv hf
  simpa using this

theorem readU16_enc16 {x : Nat} (hx : x < 65536) :
    ∀ s : Bytes, readU16 (enc16 x ++ s) = .ok (x, s) := by
  intro s
  simp only [enc16, List.cons_append, List.nil_append, readU16]
  have : x / 256 % 256 * 256 + x % 256 = x := by omega
  rw [this]

theorem readU32_enc32 {x : Nat} (hx : x < 4294967296) :
    ∀ s : Bytes, readU32 (enc32 x ++ s) = .ok (x, s) := by
  intro s
  simp only [enc32, List.cons_append, List.nil_append, readU32]
  have : ((x / 16777216 % 256 * 256 + x / 65536 % 256) * 256 + x / 256 % 256) * 256 + x % 256
      = x := by omega
  rw [this]

theorem readFull_exact (l s : Bytes) : readFull l.length (l ++ s) = .ok (l, s) := by
  simp [readFull, List.take_left, List.drop_left]

theorem headerDecode_encode (h : Header) (s : Bytes) (hv : ValidHeader h) :
    Header.Decode (h.Encode ++ s) = .ok (h, s) := by
  obtain ⟨h1, h2, h3, h4, h5, h6⟩ := hv
  simp only [Header.Encode, Header.Decode, List.append_assoc, readU16_enc16 h1,
    readU16_enc16 h2, readU16_enc16 h3, readU16_enc16 h4, readU16_enc16 h5,
    readU16_enc16 h6]

theorem questionDecode_encode (q : Question) (fuel : Nat) (s : Bytes) (rs : Option Bytes)
    (hv : ValidQuestion q) (hf : NameFits fuel q.Name) :
    Question.Decode fuel (q.Encode ++ s) rs = some (.ok (q, s)) := by
  obtain ⟨hn, ht, hc⟩ := hv
  simp only [Question.Encode, Question.Decode, List.append_assoc,
    decodeName_encodeName_simp q.Name fuel rs hn hf, readU16_enc16 ht, readU16_enc16 hc]

theorem recordDecode_encode (r : Record) (fuel : Nat) (s : Bytes) (rs : Option Bytes)
    (hv : ValidRecord r) (hf : RecordFits fuel r) :
    Record.Decode fuel (r.Encode ++ s) rs = some (.ok (r, s)) := by
  obtain ⟨nm, typ, cls, ttl, data⟩ := r
  obtain ⟨hn, ht, hc, httl, hvns, hvother⟩ := hv
  obtain ⟨hfn, hfd⟩ := hf
  by_cases hns : typ = TypeNS
  · subst hns
    obtain ⟨hdv, hdl⟩ := hvns rfl
    have hlen : (EncodeName data).length % 65536 = (EncodeName data).length :=
      Nat.mod_eq_of_lt hdl
    simp only [Record.Encode, eq_self_iff_true, ite_true, List.append_assoc, hlen]
    simp only [Record.Decode, decodeName_encodeName_simp nm fuel rs hn hfn,
      readU16_enc16 ht, readU16_enc16 hc, readU32_enc32 httl,
      readU16_enc16 hdl, readFull_exact, eq_self_iff_true, ite_true,
      decodeName_encodeName_nil data fuel rs hdv (hfd rfl)]
  · have hdl := hvother hns
    have hlen : data.length % 65536 = data.length := Nat.mod_eq_of_lt hdl
    simp only [Record.Encode, hns, ite_false, List.append_assoc, hlen]
    simp only [Record.Decode, decodeName_encodeName_simp nm fuel rs hn hfn,
      readU16_enc16 ht, readU16_enc16 hc, readU32_enc32 httl,
      readU16_enc16 hdl, readFull_exact, hns, ite_false]

theorem decodeCountPartial_encode {α : Type} (dec : Bytes → Option (Except DErr (α × Bytes)))
    (enc : α → Bytes) (l : List α)
    (hdec : ∀ a ∈ l, ∀ s, dec (enc a ++ s) = some (.ok (a, s))) :
    ∀ (s : Bytes) (acc : List α),
      decodeCountPartial dec l.length ((l.map enc).flatten ++ s) acc =
        some (acc ++ l, .ok s) := by
  induction l with
  | nil => intro s acc; simp [decodeCountPartial]
  | cons a as ih =>
    intro s acc
    simp only [List.map_cons, List.flatten_cons, List.length_cons, List.append_assoc]
    simp only [decodeCountPartial, hdec a (List.mem_cons_self a as)]
    rw [ih (fun b hb t => hdec b (List.mem_cons_of_mem a hb) t) s (acc ++ [a])]
    simp

theorem packetDecodeImpl_encode (p : Packet) (fuel : Nat) (s : Bytes) (rs : Option Bytes)
    (hv : ValidPacket p) (hf : PacketFits fuel p) :
    Packet.DecodeImpl fuel (p.Encode ++ s) rs = some (p, .ok s) := by
  obtain ⟨hh, hnq, hna, hnu, hnd, hq, han, hau, had⟩ := hv
  obtain ⟨hfq, hfa, hfu, hfd⟩ := hf
  obtain ⟨hdr, qs, ans, aus, ads⟩ := p
  simp only at hh hnq hna hnu hnd hq han hau had hfq hfa hfu hfd
  simp only [Packet.Encode, List.append_assoc]
  simp only [Packet.DecodeImpl, headerDecode_encode hdr _ hh, hnq, hna, hnu, hnd,
    decodeCountPartial_encode (fun t => Question.Decode fuel t rs) Question.Encode qs
      (fun q hq2 t => questionDecode_encode q fuel t rs (hq q hq2) (hfq q hq2)),
    decodeCountPartial_encode (fun t => Record.Decode fuel t rs) Record.Encode ans
      (fun r hr t => recordDecode_encode r fuel t rs (han r hr) (hfa r hr)),
    decodeCountPartial_encode (fun t => Record.Decode fuel t rs) Record.Encode aus
      (fun r hr t => recordDecode_encode r fuel t rs (hau r hr) (hfu r hr)),
    decodeCountPartial_encode (fun t => Record.Decode fuel t rs) Record.Encode ads
      (fun r hr t => recordDecode_encode r fuel t rs (had r hr) (hfd r hr)),
    List.nil_append]

theorem packetDecode_encode (p : Packet) (fuel : Nat) (s : Bytes) (rs : Option Bytes)
    (hv : ValidPacket p) (hf : PacketFits fuel p) :
    Packet.Decode fuel (p.Encode ++ s) rs = some (.ok (p, s)) := by
  unfold Packet.Decode
  rw [packetDecodeImpl_encode p fuel s rs hv hf]

/-- `FindRecord` returns the first record of the requested type in section
order, whatever its owner name: any prefix without the type is skipped. -/
theorem findRecord_first (typ : Nat) (pre : List Record) (rec : Record) (post : List Record)
    (hpre : ∀ r ∈ pre, r.Typ ≠ typ) (hrec : rec.Typ = typ) :
    FindRecord (pre ++ rec :: post) typ = (rec, true) := by
  induction pre with
  | nil => simp [FindRecord, hrec]
  | cons r rest ih =>
    have hr : r.Typ ≠ typ := hpre r (List.mem_cons_self r rest)
    simp only [List.cons_append, FindRecord, if_neg hr]
    exact ih (fun r2 h2 => hpre r2 (List.mem_cons_of_mem r h2))

/-- When the found flag is `false`, `FindRecord` returned the zero record. -/
theorem findRecord_not_found (l : List Record) (typ : Nat) :
    (FindRecord l typ).2 = false → (FindRecord l typ).1 = emptyRecord := by
  induction l with
  | nil => intro _; rfl
  | cons r rest ih =>
    intro h
    by_cases hr : r.Typ = typ
    · simp [FindRecord, hr] at h
    · simp only [FindRecord, if_neg hr] at h ⊢
      exact ih h

/-- C1: whenever the response packet of an iteration of `Resolve` contains an
answer record of the question's type, `Resolve` returns that very packet
immediately.  The packet is universally quantified, so the conclusion holds
whatever the `Additionals` and `Authorities` sections contain — they are
never consulted. -/
theorem resolve_answer_priority (net : Network) (addr : String) (q : Question)
    (pkt : Packet) (fuel : Nat)
    (hnet : net addr (BuildQuery 0 q.Name q.Typ 0) = some pkt)
    (hans : (FindRecord pkt.Answers q.Typ).2 = true) :
    Resolve net (fuel + 1) q addr = some (.ok pkt) := by
  simp only [Resolve, hnet, hans, if_true]

/-- Witness for C1: a response with an `A` answer and also an `NS` authority
and a glue additional is returned as-is in one iteration. -/
theorem resolve_answer_priority_witness :
    Resolve (fun _ _ => some answerPacket) 1 ⟨[103, 111], TypeA, ClassIN⟩ rootAddr =
      some (.ok answerPacket) :=
  resolve_answer_priority (fun _ _ => some answerPacket) rootAddr
    ⟨[103, 111], TypeA, ClassIN⟩ answerPacket 0 rfl rfl

/-- C2: in an iteration whose response has no answer of the question's type,
a glue `A` additional — the first `A` record of the section in order,
whatever its owner name — determines the next server address
(`ParseIP(data)` joined with port 53) and the iteration performs no nested
NS resolution; only when no `A` additional exists is the `NS` authority
resolved (a nested resolution from the root) to obtain the next address. -/
theorem resolve_glue_precedence (net : Network) (addr : String) (q : Question)
    (pkt : Packet) (fuel : Nat)
    (hnet : net addr (BuildQuery 0 q.Name q.Typ 0) = some pkt)
    (hans : (FindRecord pkt.Answers q.Typ).2 = false) :
    (∀ pre rec post, pkt.Additionals = pre ++ rec :: post →
      (∀ r ∈ pre, r.Typ ≠ TypeA) → rec.Typ = TypeA →
      Resolve net (fuel + 1) q addr =
        Resolve net fuel q (joinHostPort (ParseIP rec.Data) "53")) ∧
    ((FindRecord pkt.Additionals TypeA).2 = false →
      ∀ auth, FindRecord pkt.Authorities TypeNS = (auth, true) →
      Resolve net (fuel + 1) q addr =
        (match Resolve net fuel ⟨auth.Data, TypeA, ClassIN⟩ rootAddr with
         | none => none
         | some (.error e) => some (.error e)
         | some (.ok pkt2) =>
             Resolve net fuel q
               (joinHostPort (ParseIP (FindRecord pkt2.Answers TypeA).1.Data) "53"))) := by
  constructor
  · intro pre rec post hdecomp hpre hrec
    have hfind : FindRecord pkt.Additionals TypeA = (rec, true) := by
      rw [hdecomp]; exact findRecord_first TypeA pre rec post hpre hrec
    simp only [Resolve, hnet, hans, if_false, hfind, if_true, Bool.false_eq_true]
  · intro hglue auth hauth
    simp only [Resolve, hnet, hans, hglue, hauth, if_true, if_false, Bool.false_eq_true]

/-- Witness for C2: both branches at concrete inputs.  With a glue additional
present (behind a `TXT` record with a different owner name), the next hop is
`5.6.7.8:53` and the `NS` authority is ignored; with only an `NS` authority,
the nested resolution of its name is performed. -/
theorem resolve_glue_precedence_witness :
    (Resolve glueLoopNet 1 ⟨[103, 111], TypeA, ClassIN⟩ rootAddr =
      Resolve glueLoopNet 0 ⟨[103, 111], TypeA, ClassIN⟩
        (joinHostPort (ParseIP [5, 6, 7, 8]) "53")) ∧
    (Resolve (fun _ _ => some nsOnlyPacket) 1 ⟨[103, 111], TypeA, ClassIN⟩ rootAddr =
      (match Resolve (fun _ _ => some nsOnlyPacket) 0 ⟨[110, 115], TypeA, ClassIN⟩
          rootAddr with
       | none => none
       | some (.error e) => some (.error e)
       | some (.ok pkt2) =>
           Resolve (fun _ _ => some nsOnlyPacket) 0 ⟨[103, 111], TypeA, ClassIN⟩
             (joinHostPort (ParseIP (FindRecord pkt2.Answers TypeA).1.Data) "53"))) := by
  constructor
  · exact (resolve_glue_precedence glueLoopNet rootAddr ⟨[103, 111], TypeA, ClassIN⟩
      delegationPacket 0 rfl rfl).1
      [⟨[116, 120], TypeTXT, ClassIN, 60, [1]⟩]
      ⟨[110, 115], TypeA, ClassIN, 60, [5, 6, 7, 8]⟩ [] rfl (by decide) rfl
  · exact (resolve_glue_precedence (fun _ _ => some nsOnlyPacket) rootAddr
      ⟨[103, 111], TypeA, ClassIN⟩ nsOnlyPacket 0 rfl rfl).2 rfl
      ⟨[103, 111], TypeNS, ClassIN, 60, [110, 115]⟩ rfl

/-- C4 (code bug): `Resolve` has no iteration bound and no
`ResolutionLoopError`.  Against a mock server chain that always delegates via
glue and never answers, the loop never returns within any number `fuel` of
iterations: run with any finite budget it is still running, which models the
Go `for { ... }` loop iterating forever instead of failing with
`ResolutionLoopError`. -/
theorem resolve_glue_loop_no_bound :
    ∀ (fuel : Nat) (q : Question) (addr : String), Resolve glueLoopNet fuel q addr = none := by
  intro fuel
  induction fuel with
  | zero => intro q addr; rfl
  | succ n ih =>
    intro q addr
    simp only [Resolve, glueLoopNet, delegationPacket, FindRecord, emptyRecord]
    exact ih q _

/-- C10: when `Resolve` succeeds but the final packet holds no answer of the
requested type, `ResolveDomain` discards the found flag of `FindRecord` and
returns the empty string with no error: `ParseIP` of the zero record's `nil`
data is `""`. -/
theorem resolveDomain_no_answer (net : Network) (domain : Bytes) (typ fuel : Nat)
    (pkt : Packet)
    (hres : Resolve net fuel ⟨domain, typ, ClassIN⟩ rootAddr = some (.ok pkt))
    (hfind : (FindRecord pkt.Answers typ).2 = false) :
    ResolveDomain net fuel domain typ = some (.ok "") := by
  unfold ResolveDomain
  rw [hres]
  dsimp only
  rw [findRecord_not_found pkt.Answers typ hfind]
  rfl

/-- Witness for C10: a server that returns a packet with no answers, no glue
and no authority makes `Resolve` succeed with that packet, and
`ResolveDomain` returns `""` and no error. -/
theorem resolveDomain_no_answer_witness :
    ResolveDomain (fun _ _ => some deadEndPacket) 1 [103, 111] TypeTXT = some (.ok "") :=
  resolveDomain_no_answer (fun _ _ => some deadEndPacket) [103, 111] TypeTXT 1
    deadEndPacket rfl rfl

theorem mul256_add_eq_shiftLeft_or (x b2 : Nat) (h : b2 < 256) :
    x * 256 + b2 = (x <<< 8) ||| b2 := by
  have h2 : b2 < 2 ^ 8 := by simpa using h
  have e := Nat.mul_add_lt_is_or h2 x
  calc x * 256 + b2 = 2 ^ 8 * x + b2 := by rw [Nat.mul_comm]
    _ = 2 ^ 8 * x ||| b2 := e
    _ = (x <<< 8) ||| b2 := by rw [Nat.shiftLeft_eq, Nat.mul_comm]

/-- C3: on a pointer byte `b` (top two bits `11`), `DecodeName` reads one
more byte `b2`, forms the offset `((b &&& 63) <<< 8) ||| b2`, fails with the
no-seeker error when no backing buffer is available, fails with the
out-of-bounds error when the offset is not below the length of the buffered
bytes, and otherwise decodes one name starting at that offset of the backing
buffer, appends it to the name accumulated so far, and terminates the name
(the bytes after `b2` are returned untouched). -/
theorem decode_pointer_offset (fuel : Nat) (acc : Bytes) (b b2 : Nat) (s2 : Bytes)
    (hb : b &&& 192 = 192) (hb2 : b2 < 256) :
    ((b &&& 63) * 256 + b2 = ((b &&& 63) <<< 8) ||| b2) ∧
    (∀ s1 : Bytes, DecodeNameAux (fuel + 1) acc (b :: s1) none = some (.error .noSeeker)) ∧
    (∀ data : Bytes,
      (data.length ≤ (b &&& 63) * 256 + b2 →
        DecodeNameAux (fuel + 1) acc (b :: b2 :: s2) (some data) =
          some (.error .seekOOB)) ∧
      ((b &&& 63) * 256 + b2 < data.length →
        DecodeNameAux (fuel + 1) acc (b :: b2 :: s2) (some data) =
          match DecodeNameAux fuel [] (data.drop ((b &&& 63) * 256 + b2)) (some data) with
          | none => none
          | some (.error e) => some (.error e)
          | some (.ok (part, _)) =>
              some (.ok ((if 0 < acc.length then acc ++ [46] else acc) ++ part, s2)))) := by
  have hb0 : b ≠ 0 := by
    intro h0
    rw [h0] at hb
    simp at hb
  have hbne : b &&& 192 ≠ 0 := by rw [hb]; decide
  refine ⟨mul256_add_eq_shiftLeft_or (b &&& 63) b2 hb2, ?_, ?_⟩
  · intro s1
    rw [decodeNameAux_pointer_branch fuel acc b s1 none hb0 hbne]
    rfl
  · intro data
    constructor
    · intro hle
      rw [decodeNameAux_pointer_branch fuel acc b (b2 :: s2) (some data) hb0 hbne]
      simp only [DecodeCompressedName]
      rw [if_neg (by omega)]
    · intro hlt
      rw [decodeNameAux_pointer_branch fuel acc b (b2 :: s2) (some data) hb0 hbne]
      simp only [DecodeCompressedName]
      rw [if_pos hlt]
      cases DecodeNameAux fuel [] (data.drop ((b &&& 63) * 256 + b2)) (some data) with
      | none => rfl
      | some r =>
        cases r with
        | error e => rfl
        | ok pr => rfl

/-- Witness for C3: the offset formula at `b = 192`, `b2 = 0`; the no-seeker
error; the out-of-range error for offset 9 against a 5-byte buffer; and a
successful jump to offset 0 where the label `abc` is decoded, terminating
the name with the byte `7` still unread. -/
theorem decode_pointer_offset_witness :
    ((192 &&& 63) * 256 + 0 = ((192 &&& 63) <<< 8) ||| 0) ∧
    DecodeNameAux 4 [] [192, 0, 7] none = some (.error .noSeeker) ∧
    DecodeNameAux 4 [] [192, 9, 7] (some [3, 97, 98, 99, 0]) = some (.error .seekOOB) ∧
    DecodeNameAux 4 [] [192, 0, 7] (some [3, 97, 98, 99, 0]) =
      some (.ok ([97, 98, 99], [7])) := by
  refine ⟨(decode_pointer_offset 3 [] 192 0 [7] (by decide) (by decide)).1,
    (decode_pointer_offset 3 [] 192 0 [7] (by decide) (by decide)).2.1 [0, 7],
    ((decode_pointer_offset 3 [] 192 9 [7] (by decide) (by decide)).2.2
      [3, 97, 98, 99, 0]).1 (by decide), ?_⟩
  rw [((decode_pointer_offset 3 [] 192 0 [7] (by decide) (by decide)).2.2
    [3, 97, 98, 99, 0]).2 (by decide)]
  rfl

/-- C6 counterexample: the name `"."` (byte `[46]`) consists of two empty
labels, each of length at most 63, yet decoding its encoding yields the
empty name with two stray bytes left over — the round trip fails for names
with an empty label. -/
theorem name_roundtrip_empty_label_cex :
    EncodeName [46] = [0, 0, 0] ∧
    DecodeName 9 (EncodeName [46]) none = some (.ok ([], [0, 0])) ∧
    ([] : Bytes) ≠ [46] :=
  ⟨rfl, rfl, by decide⟩

/-- C6 (amended): for a name whose dot-separated labels are all nonempty and
at most 63 bytes, decoding the output of `EncodeName` returns exactly the
name (and consumes the whole encoding), for any fuel exceeding the label
count. -/
theorem name_roundtrip_nonempty_labels (n : Bytes) (fuel : Nat) (rs : Option Bytes)
    (hv : ValidName n) (hf : NameFits fuel n) :
    DecodeName fuel (EncodeName n) rs = some (.ok (n, [])) :=
  decodeName_encodeName_nil n fuel rs hv hf

/-- Witness for the amended C6: the name `go.com` round-trips. -/
theorem name_roundtrip_nonempty_labels_witness :
    DecodeName 9 (EncodeName [103, 111, 46, 99, 111, 109]) none =
      some (.ok ([103, 111, 46, 99, 111, 109], [])) :=
  name_roundtrip_nonempty_labels [103, 111, 46, 99, 111, 109] 9 none
    (by decide) (by decide)

/-- C7 counterexample: byte `64` (`0x40`, top two bits `01`) is treated as a
compression pointer by `DecodeName`: with a backing buffer it is followed
(to offset 0, where the label `ab` lies), and without one it produces the
no-seeker error that only the pointer path can produce — although its top
two bits are not `11` as the claim requires. -/
theorem pointer_top_bits_01_followed :
    DecodeName 5 [64, 0] (some [2, 97, 98, 0]) = some (.ok ([97, 98], [])) ∧
    64 &&& 192 ≠ 192 ∧
    DecodeName 5 [64, 0] none = some (.error .noSeeker) :=
  ⟨rfl, by decide, rfl⟩

/-- C7 (amended): a byte starts a plain label exactly when its top two bits
are `00` (`b &&& 192 = 0`), and is treated as a compression pointer exactly
when `b &&& 192 ≠ 0` — top bits `01`, `10` and `11` all enter the pointer
path (`DecodeCompressedName`). -/
theorem decode_branch_on_top_bits (fuel : Nat) (acc : Bytes) (b : Nat) (s1 : Bytes)
    (rs : Option Bytes) (hb0 : b ≠ 0) :
    (b &&& 192 = 0 → b ≤ s1.length →
      DecodeNameAux (fuel + 1) acc (b :: s1) rs =
        DecodeNameAux fuel ((if 0 < acc.length then acc ++ [46] else acc) ++ s1.take b)
          (s1.drop b) rs) ∧
    (b &&& 192 ≠ 0 →
      DecodeNameAux (fuel + 1) acc (b :: s1) rs =
        match DecodeCompressedName fuel s1 rs b with
        | none => none
        | some (.error e) => some (.error e)
        | some (.ok (part, rest)) =>
            some (.ok ((if 0 < acc.length then acc ++ [46] else acc) ++ part, rest))) :=
  ⟨fun h hle => decodeNameAux_label_step fuel acc b s1 rs hb0 h hle,
   fun h => decodeNameAux_pointer_branch fuel acc b s1 rs hb0 h⟩

/-- Witness for the amended C7: byte `2` (top bits `00`) consumes a 2-byte
label; byte `192` (top bits `11`) enters the pointer path. -/
theorem decode_branch_on_top_bits_witness :
    (DecodeNameAux 3 [] [2, 97, 98, 0] none = DecodeNameAux 2 [97, 98] [0] none) ∧
    (DecodeNameAux 3 [] [192, 0] none =
      match DecodeCompressedName 2 [0] none 192 with
      | none => none
      | some (.error e) => some (.error e)
      | some (.ok (part, rest)) => some (.ok (part, rest))) :=
  ⟨(decode_branch_on_top_bits 2 [] 2 [97, 98, 0] none (by decide)).1 (by decide)
      (by decide),
   (decode_branch_on_top_bits 2 [] 192 [0] none (by decide)).2 (by decide)⟩

/-- C9 (code bug): a message whose compression pointer points at itself
(byte 0 of the buffer `[192, 0]` is a pointer to offset 0) makes the Go code
recurse forever — `DecodeName` never produces a result within any fuel
bound, and in particular never returns a `CompressionError`-style error
value. -/
theorem pointer_cycle_diverges :
    ∀ fuel : Nat, DecodeName fuel [192, 0] (some [192, 0]) = none := by
  have haux : ∀ fuel (acc : Bytes), DecodeNameAux fuel acc [192, 0] (some [192, 0]) = none := by
    intro fuel
    induction fuel with
    | zero => intro acc; rfl
    | succ n ih =>
      intro acc
      have hstep : DecodeNameAux (n + 1) acc [192, 0] (some [192, 0]) =
          match DecodeNameAux n [] [192, 0] (some [192, 0]) with
          | none => none
          | some (.error e) => some (.error e)
          | some (.ok (part, _)) =>
              some (.ok ((if 0 < acc.length then acc ++ [46] else acc) ++ part, [])) := rfl
      rw [hstep, ih []]
  intro fuel
  exact haux fuel []

/-- C5: decoding the encoding of any valid `Header`, `Question`, `Record` or
`Packet` (counts equal to section lengths, well-formed names, `NS` data
holding a name, fields within their widths) returns the original value and
leaves exactly the trailing input. -/
theorem encode_decode_roundtrip :
    (∀ (h : Header) (s : Bytes), ValidHeader h → Header.Decode (h.Encode ++ s) = .ok (h, s)) ∧
    (∀ (q : Question) (fuel : Nat) (s : Bytes) (rs : Option Bytes),
      ValidQuestion q → NameFits fuel q.Name →
      Question.Decode fuel (q.Encode ++ s) rs = some (.ok (q, s))) ∧
    (∀ (r : Record) (fuel : Nat) (s : Bytes) (rs : Option Bytes),
      ValidRecord r → RecordFits fuel r →
      Record.Decode fuel (r.Encode ++ s) rs = some (.ok (r, s))) ∧
    (∀ (p : Packet) (fuel : Nat) (s : Bytes) (rs : Option Bytes),
      ValidPacket p → PacketFits fuel p →
      Packet.Decode fuel (p.Encode ++ s) rs = some (.ok (p, s))) :=
  ⟨headerDecode_encode, questionDecode_encode, recordDecode_encode, packetDecode_encode⟩

/-- Witness for C5: concrete round trips of a header, a question, an `NS`
record and a full four-section packet. -/
theorem encode_decode_roundtrip_witness :
    Header.Decode ((⟨4884, 256, 1, 0, 0, 0⟩ : Header).Encode ++ [7]) =
      .ok (⟨4884, 256, 1, 0, 0, 0⟩, [7]) ∧
    Question.Decode 9 ((⟨[103, 111], TypeA, ClassIN⟩ : Question).Encode ++ []) none =
      some (.ok (⟨[103, 111], TypeA, ClassIN⟩, [])) ∧
    Record.Decode 9
        ((⟨[103, 111], TypeNS, ClassIN, 300, [110, 115, 46, 103, 111]⟩ : Record).Encode
          ++ []) none =
      some (.ok (⟨[103, 111], TypeNS, ClassIN, 300, [110, 115, 46, 103, 111]⟩, [])) ∧
    Packet.Decode 9 (rtPacket.Encode ++ []) none = some (.ok (rtPacket, [])) :=
  ⟨encode_decode_roundtrip.1 _ [7] (by decide),
   encode_decode_roundtrip.2.1 _ 9 [] none (by decide) (by decide),
   encode_decode_roundtrip.2.2.1 _ 9 [] none (by decide) (by decide),
   encode_decode_roundtrip.2.2.2 rtPacket 9 [] none (by decide) (by decide)⟩

/-- C8: when any part of a packet decode fails, the error — and only the
error — reaches the caller: the partially populated receiver of
`Packet.Decode` is discarded, so no question or record read before the
failure is retained in anything handed back (`sendQueryPacket` yields no
packet at all); a packet is handed back exactly on success. -/
theorem decode_error_not_handed_back (fuel : Nat) (s : Bytes) (rs : Option Bytes) :
    (∀ p e, Packet.DecodeImpl fuel s rs = some (p, .error e) →
      Packet.Decode fuel s rs = some (.error e) ∧ sendQueryPacket fuel s rs = none) ∧
    (∀ p rest, Packet.DecodeImpl fuel s rs = some (p, .ok rest) →
      sendQueryPacket fuel s rs = some p) := by
  constructor
  · intro p e h
    unfold Packet.Decode sendQueryPacket
    rw [h]
    exact ⟨rfl, rfl⟩
  · intro p rest h
    unfold sendQueryPacket
    rw [h]

/-- Witness for C8: on the truncated message the decode aborts with the
end-of-input error, and the caller receives no packet — in particular not
the question that had already been decoded into the receiver. -/
theorem decode_error_not_handed_back_witness :
    Packet.Decode 9 truncatedInput none = some (.error .eof) ∧
      sendQueryPacket 9 truncatedInput none = none :=
  (decode_error_not_handed_back 9 truncatedInput none).1 truncatedPartial .eof rfl

end Dns
